import Mathlib

/-!
Verification of the natural-language specification of
src/list-directories/list_project_dirs.py against a shallow embedding of
that script.

The script has two components:
* load_exclusions (lines 11-27): reads a JSON configuration file and returns
  two sets of bare names (directories and files to exclude), catching only
  FileNotFoundError and json.JSONDecodeError;
* build_tree (lines 50-81): recursively walks a directory, sorting entry
  names, pruning excluded names, classifying entries with os.path.isdir and
  os.path.isfile (both of which follow symbolic links), and catching only
  PermissionError around the listing loop.

The embedding models the filesystem as an inductive snapshot recording what
the script can observe through os.listdir / os.path.isdir / os.path.isfile,
and models a raised Python exception as an Option OSErr value threaded next
to the list of tree children accumulated so far (tree.add mutates the node
in place, so children appended before an exception survive it).
-/

namespace ListProjectDirs

/-- Python compares strings lexicographically by Unicode code point.  This is
the strict comparison on the underlying character lists. -/
def chars_lt : List Char → List Char → Bool
  | _, [] => false
  | [], _ :: _ => true
  | a :: as, b :: bs =>
    if a.toNat < b.toNat then true
    else if b.toNat < a.toNat then false
    else chars_lt as bs

/-- Python string strict comparison (a < b). -/
def pystr_lt (a b : String) : Bool := chars_lt a.data b.data

/-- The non-strict order used to express the ascending order produced by
Python's sorted(...): a comes no later than b iff not (b < a). -/
def SLe (a b : String) : Prop := pystr_lt b a = false

instance : DecidableRel SLe := fun a b => inferInstanceAs (Decidable (pystr_lt b a = false))

mutual
/-- Model of a filesystem entry as observable by the script.  os.path.isdir
and os.path.isfile follow symbolic links, so a symlink carries the
classification (and, for a directory target, the listable contents) of its
resolved target.  deniedDir is a directory whose os.listdir raises
PermissionError; raceDir is a directory that passes os.path.isdir but whose
os.listdir raises a non-permission OSError (for example the directory was
removed between the check and the listing); special covers entries that are
neither a file nor a directory after link resolution (broken symlinks,
sockets, device files). -/
inductive FS where
  | file : FS
  | dir : Entries → FS
  | deniedDir : FS
  | raceDir : FS
  | symlinkFile : FS
  | symlinkDir : Entries → FS
  | special : FS
/-- The named contents of a listable directory, in storage enumeration
order. -/
inductive Entries where
  | nil : Entries
  | cons : String → FS → Entries → Entries
end

/-- The contents of a directory as an association list of bare name and
entry. -/
def Entries.toList : Entries → List (String × FS)
  | .nil => []
  | .cons n f r => (n, f) :: r.toList

/-- Building directory contents from an association list. -/
def Entries.ofList : List (String × FS) → Entries
  | [] => .nil
  | (n, f) :: r => .cons n f (Entries.ofList r)

mutual
/-- Size of a filesystem snapshot, bounding the recursion depth of the
traversal. -/
def FS.size : FS → Nat
  | .dir es => es.sizeE + 1
  | .symlinkDir es => es.sizeE + 1
  | _ => 1
/-- Size of directory contents. -/
def Entries.sizeE : Entries → Nat
  | .nil => 0
  | .cons _ f r => f.size + r.sizeE + 1
end

/-- A Python OSError as distinguished by the script: PermissionError is the
only kind the traversal catches; every other OSError is grouped as other. -/
inductive OSErr where
  | permission : OSErr
  | other : OSErr
deriving DecidableEq

/-- os.path.isdir(full_path) (line 71): stat with symlink resolution; true
for directories and symlinks to directories, false when stat fails. -/
def FS.isdir : FS → Bool
  | .dir _ => true
  | .deniedDir => true
  | .raceDir => true
  | .symlinkDir _ => true
  | _ => false

/-- os.path.isfile(full_path) (line 75): true for regular files and symlinks
to regular files. -/
def FS.isfile : FS → Bool
  | .file => true
  | .symlinkFile => true
  | _ => false

/-- os.listdir(base_dir) (line 67): the raw entry names in storage
enumeration order, or the OSError raised. -/
def FS.listdir : FS → Except OSErr (List String)
  | .dir es => .ok (es.toList.map Prod.fst)
  | .symlinkDir es => .ok (es.toList.map Prod.fst)
  | .deniedDir => .error .permission
  | .raceDir => .error .other
  | _ => .error .other

/-- The named contents of an entry, used to resolve the paths the loop
builds with os.path.join; empty for entries that cannot be listed. -/
def FS.entries : FS → List (String × FS)
  | .dir es => es.toList
  | .symlinkDir es => es.toList
  | _ => []

/-- Resolving a bare name inside a directory's contents, as the OS does when
the script stats base_dir/entry: the entry of that name, if any. -/
def resolve (es : List (String × FS)) (name : String) : Option FS :=
  (es.find? (fun p => p.1 == name)).map Prod.snd

/-- Whether a path string starts with the POSIX separator. -/
def starts_with_sep (p : String) : Bool :=
  match p.data with
  | [] => false
  | c :: _ => c == '/'

/-- Whether a path string ends with the POSIX separator. -/
def ends_with_sep (b : String) : Bool :=
  match b.data.getLast? with
  | some c => c == '/'
  | none => false

/-- os.path.join for a POSIX path and a following component. -/
def os_path_join (b p : String) : String :=
  if starts_with_sep p then p
  else if b = "" ∨ ends_with_sep b then b ++ p
  else b ++ "/" ++ p

/-- The rich.tree.Tree node built by the script: a markup label and the
ordered children added with tree.add. -/
structure Tree where
  label : String
  children : List Tree

/-- Label of the root node (line 64). -/
def root_label (base_dir : String) : String :=
  "[bold cyan]" ++ base_dir ++ "/[/bold cyan]"

/-- Label of a directory child node (line 72). -/
def dir_label (entry : String) : String :=
  "[bold blue]📂 " ++ entry ++ "/[/bold blue]"

/-- Label of a file child node (line 76). -/
def file_label (entry : String) : String :=
  "📄 " ++ entry

/-- Label of the permission-denied leaf (line 79). -/
def perm_label (base_dir : String) : String :=
  "⚠️ [red]Permission denied: " ++ base_dir ++ "[/red]"

/-- sorted(os.listdir(base_dir)) (line 67): Python's stable ascending sort of
the entry names. -/
def py_sorted (names : List String) : List String :=
  names.insertionSort SLe

/-- The body of the for loop of lines 68-76 for one entry name.  bc stands
for the recursive build_tree call of line 73; it returns the children that
call appended to the new sub_tree node together with the exception escaping
it, if any.  The node produced for this entry (at most one) is returned the
same way: note that on line 72 sub_tree is appended to the current node
before the recursive call, so the directory node stays on the tree even when
the recursion escapes with an exception. -/
def entry_step (bc : String → FS → List Tree × Option OSErr)
    (exclude_dirs exclude_files : List String) (base_dir : String)
    (es : List (String × FS)) (entry : String) : List Tree × Option OSErr :=
  match resolve es entry with
  | some sub =>
    if sub.isdir && !(exclude_dirs.contains entry) then
      ([Tree.mk (dir_label entry) (bc (os_path_join base_dir entry) sub).1],
       (bc (os_path_join base_dir entry) sub).2)
    else if sub.isfile && !(exclude_files.contains entry) then
      ([Tree.mk (file_label entry) []], none)
    else ([], none)
  | none => ([], none)

/-- The for loop of lines 68-76 over the sorted entry names: children are
accumulated left to right; the first entry whose processing raises stops the
loop, keeping the children appended so far and recording the escaping
exception. -/
def for_entries (step : String → List Tree × Option OSErr) :
    List String → List Tree × Option OSErr
  | [] => ([], none)
  | entry :: rest =>
    match step entry with
    | (ts, none) =>
      let r := for_entries step rest
      (ts ++ r.1, r.2)
    | (ts, some e) => (ts, some e)

/-- The try/except of lines 66 and 78-79: a PermissionError escaping the
listing or the loop is caught, keeping the children already appended and
appending the warning leaf labeled with base_dir; any other exception
escapes unchanged. -/
def except_permission (base_dir : String) (r : List Tree × Option OSErr) :
    List Tree × Option OSErr :=
  match r with
  | (ts, some OSErr.permission) => (ts ++ [Tree.mk (perm_label base_dir) []], none)
  | r => r

/-- One frame of build_tree (lines 66-79) with fuel bounding the recursion
depth: the children appended to the node for base_dir, and the exception
escaping the frame, if any.  Fuel 0 returns a junk value; the stabilization
theorem below proves any fuel of at least FS.size fs gives the fuel-free
meaning, so the recursion of the script terminates with depth bounded by
the snapshot. -/
def build_children_F (exclude_dirs exclude_files : List String) :
    Nat → String → FS → List Tree × Option OSErr
  | 0, _, _ => ([], none)
  | fuel + 1, base_dir, fs =>
    except_permission base_dir
      (match fs.listdir with
       | .error e => ([], some e)
       | .ok names =>
         for_entries
           (entry_step (build_children_F exclude_dirs exclude_files fuel)
             exclude_dirs exclude_files base_dir fs.entries)
           (py_sorted names))

/-- The children appended to the node for base_dir by build_tree, with the
escaping exception, if any: the fuel-based frame at sufficient fuel. -/
def build_children (exclude_dirs exclude_files : List String)
    (base_dir : String) (fs : FS) : List Tree × Option OSErr :=
  build_children_F exclude_dirs exclude_files fs.size base_dir fs

/-- The loop of lines 68-76 with the recursive call being the real
build_tree recursion: processing the given names against the directory
contents es. -/
def process (exclude_dirs exclude_files : List String) (base_dir : String)
    (es : List (String × FS)) (names : List String) : List Tree × Option OSErr :=
  for_entries
    (entry_step (build_children exclude_dirs exclude_files)
      exclude_dirs exclude_files base_dir es)
    names

/-- build_tree(base_dir, exclude_dirs, exclude_files) with tree=None
(lines 50-81): the root node labeled with base_dir (line 64) holding the
accumulated children, next to the exception escaping the call, if any (the
script returns the tree only when that component is none). -/
def build_tree (base_dir : String) (exclude_dirs exclude_files : List String)
    (fs : FS) : Tree × Option OSErr :=
  let r := build_children exclude_dirs exclude_files base_dir fs
  (Tree.mk (root_label base_dir) r.1, r.2)

/-! ### The exclusion loader (lines 11-27) -/

/-- JSON values as produced by json.load. -/
inductive JSON where
  | obj : List (String × JSON) → JSON
  | arr : List JSON → JSON
  | str : String → JSON
  | num : Int → JSON

/-- Hashable JSON scalars: the only values Python's set() accepts as
elements (lists and dicts raise TypeError: unhashable type). -/
inductive Scalar where
  | str : String → Scalar
  | num : Int → Scalar
deriving DecidableEq

/-- A Python exception escaping load_exclusions uncaught (its except clause
names only FileNotFoundError and json.JSONDecodeError). -/
inductive PyExc where
  | permissionError : PyExc
  | attributeError : PyExc
  | typeError : PyExc
deriving DecidableEq

/-- What opening and parsing the configuration file yields: the file may be
missing (open raises FileNotFoundError), unreadable (open raises
PermissionError), syntactically invalid (json.load raises JSONDecodeError),
or parse to a JSON value. -/
inductive ConfigResource where
  | missing : ConfigResource
  | unreadable : ConfigResource
  | syntaxError : ConfigResource
  | parsed : JSON → ConfigResource

/-- A JSON value as a set element, when hashable. -/
def JSON.hashable : JSON → Option Scalar
  | .str s => some (.str s)
  | .num n => some (.num n)
  | _ => none

/-- Python's set(v) on a JSON value: iterating a list collects its elements
(raising TypeError when one is unhashable), iterating a string collects its
one-character substrings, iterating a dict collects its keys, and a number
is not iterable (TypeError); duplicates collapse. -/
def pySet : JSON → Except PyExc (List Scalar)
  | .arr xs =>
    match xs.mapM JSON.hashable with
    | some ss => .ok ss.dedup
    | none => .error .typeError
  | .str s => .ok ((s.data.map (fun c => Scalar.str (String.mk [c]))).dedup)
  | .obj fields => .ok ((fields.map (fun p => Scalar.str p.1)).dedup)
  | .num _ => .error .typeError

/-- Python's dict.get(key, []) (line 24): the value under the key, defaulting
to the empty list. -/
def dict_get (fields : List (String × JSON)) (key : String) : JSON :=
  match fields.find? (fun p => p.1 == key) with
  | some p => p.2
  | none => .arr []

/-- load_exclusions (lines 11-27) on the outcome of reading its
configuration file.  Success carries whether the warning of line 26 was
printed and the two exclusion sets; error is an exception escaping the call
(only FileNotFoundError and json.JSONDecodeError are caught, so an
unreadable file or a parsed value that is not a dict raises: .get on a
non-dict raises AttributeError, set() on a non-iterable raises
TypeError). -/
def load_exclusions : ConfigResource → Except PyExc (Bool × List Scalar × List Scalar)
  | .missing => .ok (true, [], [])
  | .syntaxError => .ok (true, [], [])
  | .unreadable => .error .permissionError
  | .parsed (.obj fields) =>
    match pySet (dict_get fields "exclude_dirs") with
    | .error e => .error e
    | .ok d =>
      match pySet (dict_get fields "exclude_files") with
      | .error e => .error e
      | .ok f => .ok (false, d, f)
  | .parsed _ => .error .attributeError

/-! ### Order facts about the Python string comparison -/

theorem char_toNat_inj {a b : Char} (h : a.toNat = b.toNat) : a = b :=
  Char.eq_of_val_eq (UInt32.toNat.inj h)

theorem chars_lt_cons (a b : Char) (as bs : List Char) :
    chars_lt (a :: as) (b :: bs) =
      if a.toNat < b.toNat then true
      else if b.toNat < a.toNat then false
      else chars_lt as bs := rfl

theorem chars_lt_nil_right (x : List Char) : chars_lt x [] = false := by
  cases x <;> rfl

theorem chars_lt_asymm : ∀ x y, chars_lt x y = true → chars_lt y x = false := by
  intro x
  induction x with
  | nil =>
    intro y h
    cases y with
    | nil => rfl
    | cons b bs => exact chars_lt_nil_right _
  | cons a as ih =>
    intro y h
    cases y with
    | nil => rw [chars_lt_nil_right] at h; cases h
    | cons b bs =>
      rw [chars_lt_cons] at h
      rw [chars_lt_cons]
      rcases Nat.lt_trichotomy a.toNat b.toNat with hc | hc | hc
      · rw [if_neg (by omega), if_pos hc]
      · rw [if_neg (by omega), if_neg (by omega)] at h
        rw [if_neg (by omega), if_neg (by omega)]
        exact ih bs h
      · rw [if_neg (by omega), if_pos hc] at h
        cases h

theorem chars_lt_conn : ∀ x y, chars_lt x y = false → chars_lt y x = false → x = y := by
  intro x
  induction x with
  | nil =>
    intro y h1 _
    cases y with
    | nil => rfl
    | cons b bs => cases h1
  | cons a as ih =>
    intro y h1 h2
    cases y with
    | nil => cases h2
    | cons b bs =>
      rw [chars_lt_cons] at h1 h2
      rcases Nat.lt_trichotomy a.toNat b.toNat with hc | hc | hc
      · rw [if_pos hc] at h1; cases h1
      · rw [if_neg (by omega), if_neg (by omega)] at h1 h2
        rw [char_toNat_inj hc, ih bs h1 h2]
      · rw [if_pos hc] at h2; cases h2

theorem chars_lt_cotrans :
    ∀ x z y, chars_lt x z = true → chars_lt x y = true ∨ chars_lt y z = true := by
  intro x
  induction x with
  | nil =>
    intro z y h
    cases z with
    | nil => cases h
    | cons c cs =>
      cases y with
      | nil => right; rfl
      | cons b bs => left; rfl
  | cons a as ih =>
    intro z y h
    cases z with
    | nil => rw [chars_lt_nil_right] at h; cases h
    | cons c cs =>
      cases y with
      | nil => right; rfl
      | cons b bs =>
        rw [chars_lt_cons] at h
        rw [chars_lt_cons, chars_lt_cons]
        rcases Nat.lt_trichotomy a.toNat b.toNat with hab | hab | hab
        · left; rw [if_pos hab]
        · rcases Nat.lt_trichotomy b.toNat c.toNat with hbc | hbc | hbc
          · right; rw [if_pos hbc]
          · rw [if_neg (by omega), if_neg (by omega)] at h
            rcases ih cs bs h with h4 | h4
            · left
              rw [if_neg (by omega), if_neg (by omega)]
              exact h4
            · right
              rw [if_neg (by omega), if_neg (by omega)]
              exact h4
          · rw [if_neg (by omega), if_pos (by omega)] at h
            cases h
        · rcases Nat.lt_trichotomy b.toNat c.toNat with hbc | hbc | hbc
          · right; rw [if_pos hbc]
          · rw [if_neg (by omega), if_pos (by omega)] at h
            cases h
          · rw [if_neg (by omega), if_pos (by omega)] at h
            cases h

instance : IsTotal String SLe := by
  constructor
  intro a b
  unfold SLe pystr_lt
  rcases h : chars_lt b.data a.data with _ | _
  · left; rfl
  · right; exact chars_lt_asymm _ _ h

instance : IsTrans String SLe := by
  constructor
  intro a b c h1 h2
  unfold SLe pystr_lt at h1 h2 ⊢
  rcases h : chars_lt c.data a.data with _ | _
  · rfl
  · rcases chars_lt_cotrans _ _ b.data h with h3 | h3
    · rw [h3] at h2; cases h2
    · rw [h3] at h1; cases h1

theorem string_data_inj : ∀ a b : String, a.data = b.data → a = b := by
  intro a b h
  cases a
  cases b
  exact congrArg String.mk h

instance : IsAntisymm String SLe := by
  constructor
  intro a b h1 h2
  exact string_data_inj _ _ (chars_lt_conn _ _ h2 h1)

/-- py_sorted output is sorted in the SLe order. -/
theorem py_sorted_sorted (names : List String) : (py_sorted names).Sorted SLe :=
  List.sorted_insertionSort SLe names

/-- py_sorted output is a permutation of its input. -/
theorem py_sorted_perm (names : List String) : (py_sorted names).Perm names :=
  List.perm_insertionSort SLe names

/-- Sorting two lists of names that are permutations of each other gives the
same list: Python's sorted output depends only on the multiset of names. -/
theorem py_sorted_congr {names names2 : List String} (h : names.Perm names2) :
    py_sorted names = py_sorted names2 :=
  List.eq_of_perm_of_sorted
    ((py_sorted_perm names).trans (h.trans (py_sorted_perm names2).symm))
    (py_sorted_sorted names) (py_sorted_sorted names2)

/-! ### Basic facts about the embedding -/

theorem FS.size_pos (fs : FS) : 1 ≤ fs.size := by
  cases fs <;> simp [FS.size]

theorem mem_toList_size :
    (E : Entries) → (n : String) → (sub : FS) → (n, sub) ∈ E.toList → sub.size < E.sizeE
  | .nil, _, _, h => absurd h (by simp [Entries.toList])
  | .cons m f r, n, sub, h => by
    rw [Entries.toList, List.mem_cons] at h
    rcases h with h | h
    · have hs : sub = f := congrArg Prod.snd h
      subst hs
      simp [Entries.sizeE]
      omega
    · have := mem_toList_size r n sub h
      simp [Entries.sizeE]
      omega

theorem resolve_mem {es : List (String × FS)} {n : String} {sub : FS}
    (h : resolve es n = some sub) : ∃ m, (m, sub) ∈ es := by
  unfold resolve at h
  cases hf : es.find? (fun p => p.1 == n) with
  | none => rw [hf] at h; cases h
  | some p =>
    rw [hf] at h
    refine ⟨p.1, ?_⟩
    have hm := List.mem_of_find?_eq_some hf
    have : p.2 = sub := by simpa using h
    rw [← this]
    simpa using hm

/-- The loop result depends only on the step values at the processed
names. -/
theorem for_entries_congr {step1 step2 : String → List Tree × Option OSErr}
    {ns : List String} (h : ∀ s ∈ ns, step1 s = step2 s) :
    for_entries step1 ns = for_entries step2 ns := by
  induction ns with
  | nil => rfl
  | cons n rest ih =>
    rw [for_entries, for_entries, h n (by simp), ih (fun s hs => h s (by simp [hs]))]

/-- The per-entry step depends on the recursive call only at the entry
resolved in the current directory contents. -/
theorem entry_step_congr {bc1 bc2 : String → FS → List Tree × Option OSErr}
    {exD exF : List String} {p : String} {es : List (String × FS)} {entry : String}
    (h : ∀ sub, resolve es entry = some sub →
      bc1 (os_path_join p entry) sub = bc2 (os_path_join p entry) sub) :
    entry_step bc1 exD exF p es entry = entry_step bc2 exD exF p es entry := by
  unfold entry_step
  cases hr : resolve es entry with
  | none => rfl
  | some sub => simp only [h sub hr]

/-- Fuel stabilization: any fuel of at least FS.size fs computes the same
frame, so the recursion depth of build_tree is bounded by the snapshot's
nesting and the traversal terminates. -/
theorem build_children_F_stable :
    ∀ (m n : Nat) (exD exF : List String) (p : String) (fs : FS),
      fs.size ≤ m → fs.size ≤ n →
      build_children_F exD exF m p fs = build_children_F exD exF n p fs := by
  intro m
  induction m with
  | zero =>
    intro n exD exF p fs hm _
    have := FS.size_pos fs
    omega
  | succ m ih =>
    intro n exD exF p fs hm hn
    cases n with
    | zero =>
      have := FS.size_pos fs
      omega
    | succ n =>
      simp only [build_children_F]
      cases fs with
      | dir E =>
        have hE : Entries.sizeE E ≤ m := by simp [FS.size] at hm; omega
        have hE2 : Entries.sizeE E ≤ n := by simp [FS.size] at hn; omega
        congr 1
        simp only [FS.listdir, FS.entries]
        apply for_entries_congr
        intro s _
        apply entry_step_congr
        intro sub hr
        obtain ⟨nm, hmem⟩ := resolve_mem hr
        have hsz := mem_toList_size E nm sub hmem
        exact ih n exD exF _ sub (by omega) (by omega)
      | symlinkDir E =>
        have hE : Entries.sizeE E ≤ m := by simp [FS.size] at hm; omega
        have hE2 : Entries.sizeE E ≤ n := by simp [FS.size] at hn; omega
        congr 1
        simp only [FS.listdir, FS.entries]
        apply for_entries_congr
        intro s _
        apply entry_step_congr
        intro sub hr
        obtain ⟨nm, hmem⟩ := resolve_mem hr
        have hsz := mem_toList_size E nm sub hmem
        exact ih n exD exF _ sub (by omega) (by omega)
      | file => rfl
      | deniedDir => rfl
      | raceDir => rfl
      | symlinkFile => rfl
      | special => rfl

/-- One unfolding of build_tree's frame in terms of the loop with the real
recursive call: list, sort, loop, and catch PermissionError. -/
theorem build_children_unfold (exD exF : List String) (p : String) (fs : FS) :
    build_children exD exF p fs =
      except_permission p
        (match fs.listdir with
         | .error e => ([], some e)
         | .ok names => process exD exF p fs.entries (py_sorted names)) := by
  unfold build_children process
  cases fs with
  | dir E =>
    show build_children_F exD exF (Entries.sizeE E + 1) p (FS.dir E) = _
    simp only [build_children_F]
    congr 1
    simp only [FS.listdir, FS.entries]
    apply for_entries_congr
    intro s _
    apply entry_step_congr
    intro sub hr
    obtain ⟨nm, hmem⟩ := resolve_mem hr
    have hsz := mem_toList_size E nm sub hmem
    exact build_children_F_stable _ _ exD exF _ sub (by omega) (le_refl _)
  | symlinkDir E =>
    show build_children_F exD exF (Entries.sizeE E + 1) p (FS.symlinkDir E) = _
    simp only [build_children_F]
    congr 1
    simp only [FS.listdir, FS.entries]
    apply for_entries_congr
    intro s _
    apply entry_step_congr
    intro sub hr
    obtain ⟨nm, hmem⟩ := resolve_mem hr
    have hsz := mem_toList_size E nm sub hmem
    exact build_children_F_stable _ _ exD exF _ sub (by omega) (le_refl _)
  | file => rfl
  | deniedDir => rfl
  | raceDir => rfl
  | symlinkFile => rfl
  | special => rfl

theorem isdir_not_isfile {sub : FS} (h : sub.isdir = true) : sub.isfile = false := by
  cases sub <;> simp_all [FS.isdir, FS.isfile]

theorem contains_true {l : List String} {a : String} (h : l.contains a = true) : a ∈ l := by
  simpa using h

theorem contains_false {l : List String} {a : String} (h : l.contains a = false) : a ∉ l := by
  simpa using h

theorem process_nil (exD exF : List String) (p : String) (es : List (String × FS)) :
    process exD exF p es [] = ([], none) := rfl

/-- The frame for a directory whose listing raises PermissionError: exactly
one warning leaf labeled with the denied path, and no escaping exception. -/
theorem build_children_deniedDir (exD exF : List String) (q : String) :
    build_children exD exF q FS.deniedDir = ([Tree.mk (perm_label q) []], none) := rfl

/-- The frame for a directory whose listing raises a non-permission OSError:
no children, and the exception escapes. -/
theorem build_children_raceDir (exD exF : List String) (q : String) :
    build_children exD exF q FS.raceDir = ([], some OSErr.other) := rfl

/-! ### Claim C1 -/

/-- C1: pruning of excluded directories.  If an entry of the current
directory resolves to a directory (in the os.path.isdir sense) and its bare
name is in the directory exclusion set, the loop of build_tree produces no
node for it and never descends into it: processing the names with that entry
is exactly processing the names without it, whatever the excluded entry's
subtree holds (it may even be a subtree whose traversal would raise). -/
theorem spec_C1 (exD exF : List String) (p : String) (es : List (String × FS))
    (entry : String) (rest : List String) (sub : FS)
    (h1 : exD.contains entry = true) (h2 : resolve es entry = some sub)
    (h3 : sub.isdir = true) :
    process exD exF p es (entry :: rest) = process exD exF p es rest := by
  unfold process
  have hstep : entry_step (build_children exD exF) exD exF p es entry = ([], none) := by
    unfold entry_step
    simp [h2, h3, isdir_not_isfile h3, contains_true h1]
  rw [for_entries, hstep]
  rfl

/-- Witness for C1 at a concrete input: the excluded directory x (holding a
file) is skipped from the processed names. -/
theorem spec_C1_witness :
    (["x"] : List String).contains "x" = true ∧
    resolve [("x", FS.dir (Entries.cons "big" FS.file Entries.nil)), ("y", FS.file)] "x"
      = some (FS.dir (Entries.cons "big" FS.file Entries.nil)) ∧
    FS.isdir (FS.dir (Entries.cons "big" FS.file Entries.nil)) = true ∧
    process ["x"] [] "r" [("x", FS.dir (Entries.cons "big" FS.file Entries.nil)), ("y", FS.file)]
        ["x", "y"]
      = process ["x"] [] "r" [("x", FS.dir (Entries.cons "big" FS.file Entries.nil)), ("y", FS.file)]
        ["y"] :=
  ⟨rfl, rfl, rfl,
    spec_C1 ["x"] [] "r" [("x", FS.dir (Entries.cons "big" FS.file Entries.nil)), ("y", FS.file)]
      "x" ["y"] (FS.dir (Entries.cons "big" FS.file Entries.nil)) rfl rfl rfl⟩

/-! ### Claim C2 -/

/-- C2: a directory whose listing is denied yields exactly one
permission-warning leaf labeled with the denied path, appended to that
directory's node, and no exception escapes; in the parent's frame the
remaining sibling entries are processed exactly as they would be without the
denied entry. -/
theorem spec_C2 (exD exF : List String) (p : String) (es : List (String × FS))
    (entry : String) (rest : List String)
    (h1 : resolve es entry = some FS.deniedDir) (h2 : exD.contains entry = false) :
    build_children exD exF (os_path_join p entry) FS.deniedDir
      = ([Tree.mk (perm_label (os_path_join p entry)) []], none)
    ∧ process exD exF p es (entry :: rest)
      = (Tree.mk (dir_label entry) [Tree.mk (perm_label (os_path_join p entry)) []]
          :: (process exD exF p es rest).1,
         (process exD exF p es rest).2) := by
  refine ⟨build_children_deniedDir exD exF _, ?_⟩
  unfold process
  have hstep : entry_step (build_children exD exF) exD exF p es entry
      = ([Tree.mk (dir_label entry) [Tree.mk (perm_label (os_path_join p entry)) []]], none) := by
    unfold entry_step
    simp [h1, FS.isdir, build_children_deniedDir, contains_false h2]
  rw [for_entries, hstep]
  rfl

/-- Witness for C2 at a concrete input: the denied subdirectory d gets a
single permission leaf and its sibling z still appears. -/
theorem spec_C2_witness :
    resolve [("d", FS.deniedDir), ("z", FS.file)] "d" = some FS.deniedDir ∧
    (["v"] : List String).contains "d" = false ∧
    process ["v"] [] "r" [("d", FS.deniedDir), ("z", FS.file)] ["d", "z"]
      = (Tree.mk (dir_label "d") [Tree.mk (perm_label (os_path_join "r" "d")) []]
          :: (process ["v"] [] "r" [("d", FS.deniedDir), ("z", FS.file)] ["z"]).1,
         (process ["v"] [] "r" [("d", FS.deniedDir), ("z", FS.file)] ["z"]).2) :=
  ⟨rfl, rfl, (spec_C2 ["v"] [] "r" [("d", FS.deniedDir), ("z", FS.file)] "d" ["z"] rfl rfl).2⟩

/-! ### Claim C4 -/

/-- C4 counterexample: a symbolic link whose target is a regular file is not
omitted: build produces a File-kind node for it (os.path.isfile follows
symlinks), contradicting the claim that every symlink yields no node. -/
theorem spec_C4_counterexample :
    build_tree "r" [] [] (FS.dir (Entries.cons "s" FS.symlinkFile Entries.nil))
      = (Tree.mk (root_label "r") [Tree.mk (file_label "s") []], none) := rfl

/-- C4 as amended: only entries that are neither a directory nor a regular
file after following links (broken symlinks, special files) are omitted; a
symlink to a regular file is classified as a file (a File node, unless its
name is file-excluded), and a symlink to a directory is classified as a
directory and traversed through (its node carries the children produced by
recursing into the resolved target). -/
theorem spec_C4 (exD exF : List String) (p : String) (es : List (String × FS))
    (entry : String) (rest : List String) :
    (resolve es entry = some FS.special →
      process exD exF p es (entry :: rest) = process exD exF p es rest)
    ∧ (resolve es entry = some FS.symlinkFile → exF.contains entry = false →
      process exD exF p es (entry :: rest)
        = (Tree.mk (file_label entry) [] :: (process exD exF p es rest).1,
           (process exD exF p es rest).2))
    ∧ (∀ E : Entries, resolve es entry = some (FS.symlinkDir E) → exD.contains entry = false →
      entry_step (build_children exD exF) exD exF p es entry
        = ([Tree.mk (dir_label entry)
              (build_children exD exF (os_path_join p entry) (FS.symlinkDir E)).1],
           (build_children exD exF (os_path_join p entry) (FS.symlinkDir E)).2)) := by
  refine ⟨?_, ?_, ?_⟩
  · intro h1
    unfold process
    have hstep : entry_step (build_children exD exF) exD exF p es entry = ([], none) := by
      unfold entry_step
      simp [h1, FS.isdir, FS.isfile]
    rw [for_entries, hstep]
    rfl
  · intro h1 h2
    unfold process
    have hstep : entry_step (build_children exD exF) exD exF p es entry
        = ([Tree.mk (file_label entry) []], none) := by
      unfold entry_step
      simp [h1, FS.isdir, FS.isfile, contains_false h2]
    rw [for_entries, hstep]
    rfl
  · intro E h1 h2
    unfold entry_step
    simp [h1, FS.isdir, contains_false h2]

/-- Witness for C4 as amended, at concrete inputs: a broken symlink is
skipped, a symlink to a file becomes a File node, and a symlink to a
directory holding file a is traversed. -/
theorem spec_C4_witness :
    (resolve [("s", FS.special)] "s" = some FS.special ∧
      process [] [] "r" [("s", FS.special)] ["s"] = process [] [] "r" [("s", FS.special)] [])
    ∧ (resolve [("t", FS.symlinkFile)] "t" = some FS.symlinkFile ∧
      process [] [] "r" [("t", FS.symlinkFile)] ["t"]
        = (Tree.mk (file_label "t") [] :: (process [] [] "r" [("t", FS.symlinkFile)] []).1,
           (process [] [] "r" [("t", FS.symlinkFile)] []).2))
    ∧ (resolve [("l", FS.symlinkDir (Entries.cons "a" FS.file Entries.nil))] "l"
        = some (FS.symlinkDir (Entries.cons "a" FS.file Entries.nil)) ∧
      entry_step (build_children [] []) [] [] "r"
          [("l", FS.symlinkDir (Entries.cons "a" FS.file Entries.nil))] "l"
        = ([Tree.mk (dir_label "l")
              (build_children [] [] (os_path_join "r" "l")
                (FS.symlinkDir (Entries.cons "a" FS.file Entries.nil))).1],
           (build_children [] [] (os_path_join "r" "l")
              (FS.symlinkDir (Entries.cons "a" FS.file Entries.nil))).2)) :=
  ⟨⟨rfl, (spec_C4 [] [] "r" [("s", FS.special)] "s" []).1 rfl⟩,
   ⟨rfl, (spec_C4 [] [] "r" [("t", FS.symlinkFile)] "t" []).2.1 rfl rfl⟩,
   ⟨rfl, (spec_C4 [] [] "r" [("l", FS.symlinkDir (Entries.cons "a" FS.file Entries.nil))] "l" []).2.2
      _ rfl rfl⟩⟩

/-! ### Claim C5 -/

/-- C5 counterexample: an unreadable configuration file (open raises
PermissionError) is not handled: the exception escapes load_exclusions,
contradicting the claim that every missing, unreadable or malformed
resource yields a warning and two empty sets without raising. -/
theorem spec_C5_counterexample :
    load_exclusions ConfigResource.unreadable = Except.error PyExc.permissionError := rfl

/-- C5 as amended: only a missing file and syntactically invalid JSON are
handled with the warning and two empty sets; an unreadable file raises
PermissionError, a parsed document that is not a JSON object raises
AttributeError (.get on a non-dict), and an object whose exclusion field is
a non-iterable value raises TypeError — all uncaught. -/
theorem spec_C5 :
    load_exclusions ConfigResource.missing = Except.ok (true, [], [])
    ∧ load_exclusions ConfigResource.syntaxError = Except.ok (true, [], [])
    ∧ load_exclusions ConfigResource.unreadable = Except.error PyExc.permissionError
    ∧ load_exclusions (ConfigResource.parsed (JSON.arr [])) = Except.error PyExc.attributeError
    ∧ load_exclusions (ConfigResource.parsed (JSON.obj [("exclude_dirs", JSON.num 3)]))
        = Except.error PyExc.typeError := by
  refine ⟨rfl, rfl, rfl, rfl, rfl⟩

/-! ### Claim C6 -/

/-- C6 counterexample: a subdirectory whose listing raises a non-permission
OSError (it vanished between the parent's listing and its own) does not get
a leaf annotation: the exception escapes build_tree itself, contradicting
the claim that such failures are handled like permission errors. -/
theorem spec_C6_counterexample :
    (build_tree "r" [] [] (FS.dir (Entries.cons "d" FS.raceDir Entries.nil))).2
      = some OSErr.other := rfl

/-- C6 as amended: the traversal catches only PermissionError.  A directory
whose listing raises any other OSError produces no warning leaf and the
exception propagates out of its frame and out of the whole loop (the
remaining sibling entries are not processed). -/
theorem spec_C6 (exD exF : List String) (p : String) (es : List (String × FS))
    (entry : String) (rest : List String)
    (h1 : resolve es entry = some FS.raceDir) (h2 : exD.contains entry = false) :
    build_children exD exF (os_path_join p entry) FS.raceDir = ([], some OSErr.other)
    ∧ process exD exF p es (entry :: rest)
      = ([Tree.mk (dir_label entry) []], some OSErr.other) := by
  refine ⟨build_children_raceDir exD exF _, ?_⟩
  unfold process
  have hstep : entry_step (build_children exD exF) exD exF p es entry
      = ([Tree.mk (dir_label entry) []], some OSErr.other) := by
    unfold entry_step
    simp [h1, FS.isdir, build_children_raceDir, contains_false h2]
  rw [for_entries, hstep]

/-- Witness for C6 as amended, at a concrete input: the vanished directory d
aborts the loop before its sibling z is processed and the error escapes. -/
theorem spec_C6_witness :
    resolve [("d", FS.raceDir), ("z", FS.file)] "d" = some FS.raceDir ∧
    ([] : List String).contains "d" = false ∧
    process [] [] "r" [("d", FS.raceDir), ("z", FS.file)] ["d", "z"]
      = ([Tree.mk (dir_label "d") []], some OSErr.other) :=
  ⟨rfl, rfl, (spec_C6 [] [] "r" [("d", FS.raceDir), ("z", FS.file)] "d" ["z"] rfl rfl).2⟩

/-! ### Claim C9 -/

/-- C9: the exclusion sets are kind-specific.  A regular file whose bare
name is in the directory exclusion set but not in the file exclusion set is
still included as a File node; symmetrically, a directory whose bare name
is only in the file exclusion set is still classified as a directory and
traversed (its node carries the children of the recursive call). -/
theorem spec_C9 (exD exF : List String) (p : String) (es : List (String × FS))
    (entry : String) (rest : List String) (sub : FS) :
    (resolve es entry = some sub → sub.isdir = false → sub.isfile = true →
      exD.contains entry = true → exF.contains entry = false →
      process exD exF p es (entry :: rest)
        = (Tree.mk (file_label entry) [] :: (process exD exF p es rest).1,
           (process exD exF p es rest).2))
    ∧ (resolve es entry = some sub → sub.isdir = true →
      exF.contains entry = true → exD.contains entry = false →
      entry_step (build_children exD exF) exD exF p es entry
        = ([Tree.mk (dir_label entry)
              (build_children exD exF (os_path_join p entry) sub).1],
           (build_children exD exF (os_path_join p entry) sub).2)) := by
  constructor
  · intro h1 h2 h3 h4 h5
    unfold process
    have hstep : entry_step (build_children exD exF) exD exF p es entry
        = ([Tree.mk (file_label entry) []], none) := by
      unfold entry_step
      simp [h1, h2, h3, contains_false h5]
    rw [for_entries, hstep]
    rfl
  · intro h1 h2 h3 h4
    unfold entry_step
    simp [h1, h2, contains_false h4]

/-- Witness for C9 at concrete inputs: name n excluded only as a directory
still appears as a file, and directory n excluded only as a file is still
traversed. -/
theorem spec_C9_witness :
    (resolve [("n", FS.file)] "n" = some FS.file ∧
      process ["n"] [] "r" [("n", FS.file)] ["n"]
        = (Tree.mk (file_label "n") [] :: (process ["n"] [] "r" [("n", FS.file)] []).1,
           (process ["n"] [] "r" [("n", FS.file)] []).2))
    ∧ (resolve [("n", FS.dir (Entries.cons "a" FS.file Entries.nil))] "n"
        = some (FS.dir (Entries.cons "a" FS.file Entries.nil)) ∧
      entry_step (build_children [] ["n"]) [] ["n"] "r"
          [("n", FS.dir (Entries.cons "a" FS.file Entries.nil))] "n"
        = ([Tree.mk (dir_label "n")
              (build_children [] ["n"] (os_path_join "r" "n")
                (FS.dir (Entries.cons "a" FS.file Entries.nil))).1],
           (build_children [] ["n"] (os_path_join "r" "n")
              (FS.dir (Entries.cons "a" FS.file Entries.nil))).2)) :=
  ⟨⟨rfl, (spec_C9 ["n"] [] "r" [("n", FS.file)] "n" [] FS.file).1 rfl rfl rfl rfl rfl⟩,
   ⟨rfl, (spec_C9 [] ["n"] "r" [("n", FS.dir (Entries.cons "a" FS.file Entries.nil))] "n" []
      (FS.dir (Entries.cons "a" FS.file Entries.nil))).2 rfl rfl rfl rfl⟩⟩

/-! ### Claim C7 -/

/-- C7 counterexample: a symbolic link to a directory is classified as a
directory and followed: its resolved contents are traversed and appear in
the tree, contradicting the claim's premise that symbolic links are
excluded from classification and never followed. -/
theorem spec_C7_counterexample :
    build_tree "r" [] []
        (FS.dir (Entries.cons "l" (FS.symlinkDir (Entries.cons "a" FS.file Entries.nil)) Entries.nil))
      = (Tree.mk (root_label "r")
          [Tree.mk (dir_label "l") [Tree.mk (file_label "a") []]], none) := rfl

/-- C7 as amended: build terminates on every finite filesystem snapshot
because its recursion follows the containment relation of the snapshot
(with symlink targets resolved): the fuel-bounded frame stabilizes once the
fuel reaches the snapshot's size, so the recursion depth is bounded.  The
claim's stated reason is wrong in one respect: symlinks to directories are
classified as directories and followed (see the counterexample); in the
model symlink targets are finite, and in the running program termination on
link cycles relies on the kernel's ELOOP resolution limit making stat fail,
not on links never being followed. -/
theorem spec_C7 (fuel : Nat) (exD exF : List String) (p : String) (fs : FS)
    (h : fs.size ≤ fuel) :
    build_children_F exD exF fuel p fs = build_children exD exF p fs :=
  build_children_F_stable fuel fs.size exD exF p fs h (le_refl _)

/-- Witness for C7 at concrete input: fuel 100 suffices for a small
snapshot. -/
theorem spec_C7_witness :
    FS.size (FS.dir (Entries.cons "a" FS.file Entries.nil)) ≤ 100 ∧
    build_children_F [] [] 100 "r" (FS.dir (Entries.cons "a" FS.file Entries.nil))
      = build_children [] [] "r" (FS.dir (Entries.cons "a" FS.file Entries.nil)) :=
  ⟨by decide,
   spec_C7 100 [] [] "r" (FS.dir (Entries.cons "a" FS.file Entries.nil)) (by decide)⟩

/-! ### Claim C10 -/

theorem for_entries_stops_at_raise (step : String → List Tree × Option OSErr)
    (bad : String) (post : List String) (e : OSErr)
    (h2 : step bad = ([], some e)) :
    ∀ pre : List String, (∀ n ∈ pre, (step n).2 = none) →
      for_entries step (pre ++ bad :: post)
        = ((pre.map (fun n => (step n).1)).flatten, some e) := by
  intro pre
  induction pre with
  | nil =>
    intro _
    rw [List.nil_append, for_entries, h2]
    rfl
  | cons n rest ih =>
    intro h1
    rw [List.cons_append, for_entries]
    have hn : (step n).2 = none := h1 n (by simp)
    have hsplit : step n = ((step n).1, none) := by
      rw [← hn]
    rw [hsplit, ih (fun m hm => h1 m (by simp [hm]))]
    rfl

/-- C10: the try of build_tree wraps the whole listing loop and its except
clause catches PermissionError, so if a permission error were raised while
processing an entry partway through the sorted names (after a successful
listing), the children appended for the earlier entries are kept, the
remaining entries are skipped, and a single permission leaf labeled with the
directory being processed (base_dir, not the failing entry) is appended.
Stated over the loop skeleton for an arbitrary per-entry step: in the
concrete traversal each recursive frame catches its own permission errors,
so no concrete entry step produces one (the except clause of a frame is
reachable only from its own listing). -/
theorem spec_C10 (base_dir : String) (step : String → List Tree × Option OSErr)
    (pre : List String) (bad : String) (post : List String)
    (h1 : ∀ n ∈ pre, (step n).2 = none)
    (h2 : step bad = ([], some OSErr.permission)) :
    except_permission base_dir (for_entries step (pre ++ bad :: post))
      = ((pre.map (fun n => (step n).1)).flatten
          ++ [Tree.mk (perm_label base_dir) []], none) := by
  rw [for_entries_stops_at_raise step bad post OSErr.permission h2 pre h1]
  rfl

/-- Witness for C10 at a concrete step function: entry a appends its file
node, entry x raises PermissionError, entry z is skipped, and the warning
leaf for the directory is appended after a's node. -/
theorem spec_C10_witness :
    (∀ n ∈ ["a"], ((fun m => if m == "x" then (([] : List Tree), some OSErr.permission)
        else ([Tree.mk (file_label m) []], none)) n).2 = none) ∧
    (fun m => if m == "x" then (([] : List Tree), some OSErr.permission)
        else ([Tree.mk (file_label m) []], none)) "x" = ([], some OSErr.permission) ∧
    except_permission "base"
        (for_entries
          (fun m => if m == "x" then (([] : List Tree), some OSErr.permission)
            else ([Tree.mk (file_label m) []], none))
          (["a"] ++ "x" :: ["z"]))
      = ((["a"].map (fun n =>
            ((fun m => if m == "x" then (([] : List Tree), some OSErr.permission)
              else ([Tree.mk (file_label m) []], none)) n).1)).flatten
          ++ [Tree.mk (perm_label "base") []], none) :=
  ⟨by intro n hn; simp at hn; subst hn; rfl, rfl,
   spec_C10 "base"
     (fun m => if m == "x" then (([] : List Tree), some OSErr.permission)
       else ([Tree.mk (file_label m) []], none))
     ["a"] "x" ["z"]
     (by intro n hn; simp at hn; subst hn; rfl) rfl⟩

/-! ### Claim C3 -/

/-- The shape invariant of the children list of every node the traversal
builds: a run of child nodes tagged with entry names ascending in the
Python string order, each labeled as the directory or file node of its
name and recursively of the same shape, possibly followed by one
permission-warning leaf. -/
inductive SortedForest : List Tree → Prop where
  | mk (ps : List (String × Tree)) (tail : List Tree)
      (hsort : (ps.map Prod.fst).Sorted SLe)
      (hlab : ∀ q ∈ ps, q.2.label = dir_label q.1 ∨ q.2.label = file_label q.1)
      (hrec : ∀ q ∈ ps, SortedForest q.2.children)
      (htail : tail = [] ∨ ∃ d, tail = [Tree.mk (perm_label d) []]) :
      SortedForest (ps.map Prod.snd ++ tail)

theorem SortedForest.nil : SortedForest [] :=
  SortedForest.mk [] [] (by simp) (by simp) (by simp) (Or.inl rfl)

theorem entry_step_shape (bc : String → FS → List Tree × Option OSErr)
    (exD exF : List String) (p : String) (es : List (String × FS)) (n : String) :
    entry_step bc exD exF p es n = ([], none)
    ∨ (∃ sub, entry_step bc exD exF p es n
        = ([Tree.mk (dir_label n) (bc (os_path_join p n) sub).1],
           (bc (os_path_join p n) sub).2))
    ∨ entry_step bc exD exF p es n = ([Tree.mk (file_label n) []], none) := by
  unfold entry_step
  cases hr : resolve es n with
  | none => exact Or.inl rfl
  | some sub =>
    by_cases hd : (sub.isdir && !(exD.contains n)) = true
    · exact Or.inr (Or.inl ⟨sub, by simp only []; rw [if_pos hd]⟩)
    · by_cases hf : (sub.isfile && !(exF.contains n)) = true
      · exact Or.inr (Or.inr (by simp only []; rw [if_neg hd, if_pos hf]))
      · exact Or.inl (by simp only []; rw [if_neg hd, if_neg hf])

theorem for_entries_sortedforest (bc : String → FS → List Tree × Option OSErr)
    (hbc : ∀ q sub, SortedForest (bc q sub).1)
    (exD exF : List String) (p : String) (es : List (String × FS)) :
    ∀ ns : List String, ns.Sorted SLe →
      ∃ ps : List (String × Tree),
        (for_entries (entry_step bc exD exF p es) ns).1 = ps.map Prod.snd ∧
        (ps.map Prod.fst).Sublist ns ∧
        (∀ q ∈ ps, (q.2.label = dir_label q.1 ∨ q.2.label = file_label q.1)
          ∧ SortedForest q.2.children) := by
  intro ns
  induction ns with
  | nil =>
    intro _
    exact ⟨[], rfl, by simp, by simp⟩
  | cons n rest ih =>
    intro hsorted
    obtain ⟨ps, hps1, hps2, hps3⟩ := ih (List.Sorted.of_cons hsorted)
    rcases entry_step_shape bc exD exF p es n with hstep | ⟨sub, hstep⟩ | hstep
    · refine ⟨ps, ?_, hps2.cons n, hps3⟩
      rw [for_entries, hstep]
      simpa using hps1
    · cases he : (bc (os_path_join p n) sub).2 with
      | none =>
        refine ⟨(n, Tree.mk (dir_label n) (bc (os_path_join p n) sub).1) :: ps, ?_, hps2.cons₂ n, ?_⟩
        · rw [for_entries, hstep, he]
          simpa using hps1
        · intro q hq
          rcases List.mem_cons.mp hq with hq | hq
          · subst hq
            exact ⟨Or.inl rfl, hbc _ _⟩
          · exact hps3 q hq
      | some e =>
        refine ⟨[(n, Tree.mk (dir_label n) (bc (os_path_join p n) sub).1)], ?_, ?_, ?_⟩
        · rw [for_entries, hstep, he]
          rfl
        · exact List.Sublist.cons₂ n (List.nil_sublist rest)
        · intro q hq
          rcases List.mem_cons.mp hq with hq | hq
          · subst hq
            exact ⟨Or.inl rfl, hbc _ _⟩
          · cases hq
    · refine ⟨(n, Tree.mk (file_label n) []) :: ps, ?_, hps2.cons₂ n, ?_⟩
      · rw [for_entries, hstep]
        simpa using hps1
      · intro q hq
        rcases List.mem_cons.mp hq with hq | hq
        · subst hq
          exact ⟨Or.inr rfl, SortedForest.nil⟩
        · exact hps3 q hq

theorem sortedforest_perm_leaf (d : String) : SortedForest [Tree.mk (perm_label d) []] :=
  SortedForest.mk [] [Tree.mk (perm_label d) []] (by simp) (by simp) (by simp) (Or.inr ⟨d, rfl⟩)

theorem bcF_sortedforest :
    ∀ (fuel : Nat) (exD exF : List String) (p : String) (fs : FS),
      SortedForest (build_children_F exD exF fuel p fs).1 := by
  intro fuel
  induction fuel with
  | zero => intro exD exF p fs; exact SortedForest.nil
  | succ fuel ih =>
    intro exD exF p fs
    have main : ∀ (E : Entries),
        SortedForest
          (except_permission p
            (for_entries
              (entry_step (build_children_F exD exF fuel) exD exF p E.toList)
              (py_sorted (E.toList.map Prod.fst)))).1 := by
      intro E
      obtain ⟨ps, hps1, hps2, hps3⟩ :=
        for_entries_sortedforest (build_children_F exD exF fuel)
          (fun q sub => ih exD exF q sub) exD exF p E.toList
          (py_sorted (E.toList.map Prod.fst)) (py_sorted_sorted _)
      have hsort : (ps.map Prod.fst).Sorted SLe :=
        List.Pairwise.sublist hps2 (py_sorted_sorted _)
      cases hr : (for_entries
          (entry_step (build_children_F exD exF fuel) exD exF p E.toList)
          (py_sorted (E.toList.map Prod.fst))).2 with
      | none =>
        have hpair : for_entries
            (entry_step (build_children_F exD exF fuel) exD exF p E.toList)
            (py_sorted (E.toList.map Prod.fst)) = (ps.map Prod.snd, none) := by
          rw [← hps1, ← hr]
        rw [hpair]
        have := SortedForest.mk ps []
          hsort (fun q hq => (hps3 q hq).1) (fun q hq => (hps3 q hq).2) (Or.inl rfl)
        simpa using this
      | some e =>
        cases e with
        | permission =>
          have hpair : for_entries
              (entry_step (build_children_F exD exF fuel) exD exF p E.toList)
              (py_sorted (E.toList.map Prod.fst)) = (ps.map Prod.snd, some OSErr.permission) := by
            rw [← hps1, ← hr]
          rw [hpair]
          exact SortedForest.mk ps [Tree.mk (perm_label p) []]
            hsort (fun q hq => (hps3 q hq).1) (fun q hq => (hps3 q hq).2)
            (Or.inr ⟨p, rfl⟩)
        | other =>
          have hpair : for_entries
              (entry_step (build_children_F exD exF fuel) exD exF p E.toList)
              (py_sorted (E.toList.map Prod.fst)) = (ps.map Prod.snd, some OSErr.other) := by
            rw [← hps1, ← hr]
          rw [hpair]
          have := SortedForest.mk ps []
            hsort (fun q hq => (hps3 q hq).1) (fun q hq => (hps3 q hq).2) (Or.inl rfl)
          simpa using this
    cases fs with
    | dir E => exact main E
    | symlinkDir E => exact main E
    | file => exact SortedForest.nil
    | deniedDir => exact sortedforest_perm_leaf p
    | raceDir => exact SortedForest.nil
    | symlinkFile => exact SortedForest.nil
    | special => exact SortedForest.nil

/-- C3: at every level of a tree built by build_tree, the children of each
node are the nodes of a run of entry names ascending in Python's string
order (each labeled as the directory or file node of its name), possibly
followed by a single permission-warning leaf; in particular sibling order is
deterministic and independent of the storage enumeration order, which the
traversal erases by sorting.  (No hypothesis is needed: the invariant holds
for the children accumulated even when an exception escapes, so in
particular for every returned tree.) -/
theorem spec_C3 (base_dir : String) (exD exF : List String) (fs : FS) :
    SortedForest (build_tree base_dir exD exF fs).1.children :=
  bcF_sortedforest fs.size exD exF base_dir fs

/-! ### Claim C8 -/

instance : DecidableRel (fun (a b : String × FS) => SLe a.1 b.1) :=
  fun a b => inferInstanceAs (Decidable (SLe a.1 b.1))

/-- Sorting directory contents by entry name, used to state enumeration
order independence. -/
def sort_pairs (l : List (String × FS)) : List (String × FS) :=
  l.insertionSort (fun a b => SLe a.1 b.1)

mutual
/-- Canonical form of a snapshot: every directory's contents sorted by
name, recursively.  Two snapshots with equal canonical forms describe the
same filesystem state, possibly enumerated in different orders by the
storage. -/
def FS.canon : FS → FS
  | .file => .file
  | .deniedDir => .deniedDir
  | .raceDir => .raceDir
  | .symlinkFile => .symlinkFile
  | .special => .special
  | .dir es => .dir (Entries.ofList (sort_pairs es.canonList))
  | .symlinkDir es => .symlinkDir (Entries.ofList (sort_pairs es.canonList))
/-- Canonical forms of the entries of a directory, in enumeration order. -/
def Entries.canonList : Entries → List (String × FS)
  | .nil => []
  | .cons n f r => (n, f.canon) :: r.canonList
end

mutual
/-- Well-formedness of a snapshot: inside every listable directory the entry
names are distinct, as they are in a real filesystem. -/
def FS.wfb : FS → Bool
  | .dir es => decide ((es.toList.map Prod.fst).Nodup) && es.wfbE
  | .symlinkDir es => decide ((es.toList.map Prod.fst).Nodup) && es.wfbE
  | _ => true
/-- Well-formedness of directory contents. -/
def Entries.wfbE : Entries → Bool
  | .nil => true
  | .cons _ f r => f.wfb && r.wfbE
end

theorem toList_ofList : ∀ l : List (String × FS), (Entries.ofList l).toList = l
  | [] => rfl
  | (n, f) :: r => by rw [Entries.ofList, Entries.toList, toList_ofList r]

theorem canonList_eq :
    (E : Entries) → E.canonList = E.toList.map (fun q => (q.1, q.2.canon))
  | .nil => rfl
  | .cons n f r => by
    rw [Entries.canonList, Entries.toList, List.map_cons, canonList_eq r]

theorem canon_isdir (fs : FS) : fs.canon.isdir = fs.isdir := by
  cases fs <;> rfl

theorem canon_isfile (fs : FS) : fs.canon.isfile = fs.isfile := by
  cases fs <;> rfl

theorem find?_key_map (g : FS → FS) (n : String) :
    ∀ l : List (String × FS),
      (l.map (fun q => (q.1, g q.2))).find? (fun p => p.1 == n)
        = (l.find? (fun p => p.1 == n)).map (fun q => (q.1, g q.2)) := by
  intro l
  induction l with
  | nil => rfl
  | cons q r ih =>
    rw [List.map_cons, List.find?_cons, List.find?_cons]
    cases h : (q.1 == n) with
    | false => simpa [h] using ih
    | true => simp [h]

theorem resolve_map (g : FS → FS) (l : List (String × FS)) (n : String) :
    resolve (l.map (fun q => (q.1, g q.2))) n = (resolve l n).map g := by
  unfold resolve
  rw [find?_key_map]
  cases l.find? (fun p => p.1 == n) <;> rfl

theorem resolve_perm :
    ∀ {l l2 : List (String × FS)}, l.Perm l2 →
      (l.map Prod.fst).Nodup → ∀ n, resolve l n = resolve l2 n := by
  intro l l2 h
  induction h with
  | nil => intro _ _; rfl
  | cons x hperm ih =>
    intro hnd n
    rw [List.map_cons, List.nodup_cons] at hnd
    unfold resolve
    rw [List.find?_cons, List.find?_cons]
    cases hx : (x.1 == n) with
    | false =>
      have := ih hnd.2 n
      unfold resolve at this
      simpa using this
    | true => rfl
  | swap x y l =>
    intro hnd n
    unfold resolve
    rw [List.find?_cons, List.find?_cons, List.find?_cons, List.find?_cons]
    cases hx : (x.1 == n) with
    | false => cases hy : (y.1 == n) <;> simp [hx, hy]
    | true =>
      cases hy : (y.1 == n) with
      | false => simp [hx, hy]
      | true =>
        exfalso
        rw [List.map_cons, List.map_cons, List.nodup_cons] at hnd
        have hx2 : x.1 = n := by simpa using hx
        have hy2 : y.1 = n := by simpa using hy
        exact hnd.1 (by simp [hx2, hy2])
  | trans h1 h2 ih1 ih2 =>
    intro hnd n
    have hnd2 := ((h1.map Prod.fst).nodup_iff).mp hnd
    rw [ih1 hnd n, ih2 hnd2 n]

theorem wfbE_mem :
    (E : Entries) → E.wfbE = true → ∀ n sub, (n, sub) ∈ E.toList → sub.wfb = true
  | .nil => by intro _ n sub h; cases h
  | .cons m f r => by
    intro hw n sub h
    rw [Entries.wfbE, Bool.and_eq_true] at hw
    rw [Entries.toList, List.mem_cons] at h
    rcases h with h | h
    · have hs : sub = f := congrArg Prod.snd h
      rw [hs]
      exact hw.1
    · exact wfbE_mem r hw.2 n sub h

theorem wfb_parts {E : Entries}
    (h : (FS.dir E).wfb = true ∨ (FS.symlinkDir E).wfb = true) :
    (E.toList.map Prod.fst).Nodup ∧ E.wfbE = true := by
  rcases h with h | h
  · rw [FS.wfb, Bool.and_eq_true] at h
    exact ⟨of_decide_eq_true h.1, h.2⟩
  · rw [FS.wfb, Bool.and_eq_true] at h
    exact ⟨of_decide_eq_true h.1, h.2⟩

theorem entry_step_canon (bc1 bc2 : String → FS → List Tree × Option OSErr)
    (exD exF : List String) (p : String) (es es2 : List (String × FS)) (n : String)
    (hres : resolve es2 n = (resolve es n).map FS.canon)
    (hbc : ∀ sub, resolve es n = some sub →
      bc1 (os_path_join p n) sub = bc2 (os_path_join p n) sub.canon) :
    entry_step bc1 exD exF p es n = entry_step bc2 exD exF p es2 n := by
  unfold entry_step
  cases h : resolve es n with
  | none =>
    rw [h] at hres
    rw [hres]
    rfl
  | some sub =>
    rw [h] at hres
    rw [hres]
    simp only [Option.map, canon_isdir, canon_isfile]
    by_cases hd : (sub.isdir && !(exD.contains n)) = true
    · rw [if_pos hd, if_pos hd, hbc sub h]
    · rw [if_neg hd, if_neg hd]

theorem bcF_canon :
    ∀ (fuel : Nat) (exD exF : List String) (p : String) (fs : FS),
      fs.wfb = true →
      build_children_F exD exF fuel p fs = build_children_F exD exF fuel p fs.canon := by
  intro fuel
  induction fuel with
  | zero => intro exD exF p fs _; rfl
  | succ fuel ih =>
    intro exD exF p fs hwf
    have main : ∀ (E : Entries),
        (E.toList.map Prod.fst).Nodup → E.wfbE = true →
        (for_entries
          (entry_step (build_children_F exD exF fuel) exD exF p E.toList)
          (py_sorted (E.toList.map Prod.fst)))
        = (for_entries
          (entry_step (build_children_F exD exF fuel) exD exF p
            (Entries.ofList (sort_pairs E.canonList)).toList)
          (py_sorted ((Entries.ofList (sort_pairs E.canonList)).toList.map Prod.fst))) := by
      intro E hnd hwfE
      have hto : (Entries.ofList (sort_pairs E.canonList)).toList
          = sort_pairs (E.toList.map (fun q => (q.1, q.2.canon))) := by
        rw [toList_ofList, canonList_eq]
      have hperm : (sort_pairs (E.toList.map (fun q => (q.1, q.2.canon)))).Perm
          (E.toList.map (fun q => (q.1, q.2.canon))) :=
        List.perm_insertionSort _ _
      have hmapmap : (E.toList.map (fun q => (q.1, q.2.canon))).map Prod.fst
          = E.toList.map Prod.fst := by
        rw [List.map_map]
        rfl
      have hnames : ((Entries.ofList (sort_pairs E.canonList)).toList.map Prod.fst).Perm
          (E.toList.map Prod.fst) := by
        rw [hto, ← hmapmap]
        exact hperm.map Prod.fst
      have hndC : ((sort_pairs (E.toList.map (fun q => (q.1, q.2.canon)))).map Prod.fst).Nodup := by
        refine ((hperm.map Prod.fst).nodup_iff).mpr ?_
        rw [hmapmap]
        exact hnd
      have hres : ∀ n, resolve (Entries.ofList (sort_pairs E.canonList)).toList n
          = (resolve E.toList n).map FS.canon := by
        intro n
        rw [hto, resolve_perm hperm hndC n, resolve_map]
      rw [py_sorted_congr hnames]
      apply for_entries_congr
      intro n _
      refine (entry_step_canon (build_children_F exD exF fuel) (build_children_F exD exF fuel)
        exD exF p E.toList _ n (hres n) ?_).symm.symm
      intro sub hsub
      obtain ⟨m, hmem⟩ := resolve_mem hsub
      exact ih exD exF (os_path_join p n) sub (wfbE_mem E hwfE m sub hmem)
    cases fs with
    | file => rfl
    | deniedDir => rfl
    | raceDir => rfl
    | symlinkFile => rfl
    | special => rfl
    | dir E =>
      obtain ⟨hnd, hwfE⟩ := wfb_parts (Or.inl hwf)
      show except_permission p _ = except_permission p _
      rw [FS.canon]
      simp only [build_children_F, FS.listdir, FS.entries]
      rw [main E hnd hwfE]
    | symlinkDir E =>
      obtain ⟨hnd, hwfE⟩ := wfb_parts (Or.inr hwf)
      show except_permission p _ = except_permission p _
      rw [FS.canon]
      simp only [build_children_F, FS.listdir, FS.entries]
      rw [main E hnd hwfE]

/-- C8: determinism up to storage enumeration.  Two calls of build_tree on
the same root path and exclusion sets over well-formed snapshots describing
the same filesystem state (equal canonical forms, so equal up to the order
in which each directory's entries are enumerated) produce identical results:
the storage enumeration order is erased by the sorting step, so the build is
deterministic on an unchanged filesystem. -/
theorem spec_C8 (p : String) (exD exF : List String) (fs fs2 : FS)
    (h1 : fs.wfb = true) (h2 : fs2.wfb = true) (h3 : fs.canon = fs2.canon) :
    build_tree p exD exF fs = build_tree p exD exF fs2 := by
  have hb : build_children exD exF p fs = build_children exD exF p fs2 := by
    calc build_children exD exF p fs
        = build_children_F exD exF (max fs.size fs2.size) p fs := by
          unfold build_children
          exact (build_children_F_stable (max fs.size fs2.size) fs.size exD exF p fs
            (le_max_left _ _) (le_refl _)).symm
      _ = build_children_F exD exF (max fs.size fs2.size) p fs.canon :=
          bcF_canon (max fs.size fs2.size) exD exF p fs h1
      _ = build_children_F exD exF (max fs.size fs2.size) p fs2.canon := by rw [h3]
      _ = build_children_F exD exF (max fs.size fs2.size) p fs2 :=
          (bcF_canon (max fs.size fs2.size) exD exF p fs2 h2).symm
      _ = build_children exD exF p fs2 := by
          unfold build_children
          exact build_children_F_stable (max fs.size fs2.size) fs2.size exD exF p fs2
            (le_max_right _ _) (le_refl _)
  unfold build_tree
  rw [hb]

/-- Witness for C8 at concrete inputs: the same two files enumerated in the
two possible orders produce the same tree. -/
theorem spec_C8_witness :
    FS.wfb (FS.dir (Entries.cons "b" FS.file (Entries.cons "a" FS.file Entries.nil))) = true ∧
    FS.wfb (FS.dir (Entries.cons "a" FS.file (Entries.cons "b" FS.file Entries.nil))) = true ∧
    FS.canon (FS.dir (Entries.cons "b" FS.file (Entries.cons "a" FS.file Entries.nil)))
      = FS.canon (FS.dir (Entries.cons "a" FS.file (Entries.cons "b" FS.file Entries.nil))) ∧
    build_tree "r" [] [] (FS.dir (Entries.cons "b" FS.file (Entries.cons "a" FS.file Entries.nil)))
      = build_tree "r" [] [] (FS.dir (Entries.cons "a" FS.file (Entries.cons "b" FS.file Entries.nil))) :=
  ⟨rfl, rfl, rfl,
   spec_C8 "r" [] []
     (FS.dir (Entries.cons "b" FS.file (Entries.cons "a" FS.file Entries.nil)))
     (FS.dir (Entries.cons "a" FS.file (Entries.cons "b" FS.file Entries.nil)))
     rfl rfl rfl⟩

end ListProjectDirs
